import Mathlib

/-!
Shallow embedding of the rollup operator / synchronizer repository.

Part I embeds `rollup-operator/src/operator-manager.js` directly from the
source: the `OperatorManager` class, its constructor, `_getGasPrice`,
`signTransaction` and the six transaction builders.

Part II models the Synchronizer and State-Tree engine.  The engine itself
(`src/synch`, `rollupdb`) is not part of the visible sources — only its test
suite is — so those definitions are modelled from the spec, pinned by the
behaviour the test suite asserts.

Machine integers are modelled as `Nat` (the JavaScript code uses `BigInt`
arbitrary-precision arithmetic for balances and gas, so no wrap-around is
involved); fallible operations return `Option`.
-/

/-! ## Part I: OperatorManager (from operator-manager.js) -/

/-- The `gasLimit` constructor argument of `OperatorManager`: JavaScript passes
either the string `"default"` or a number; `gasLimit === "default"` is a strict
string comparison, so we keep both shapes. -/
inductive GasLimitArg where
  | str (s : String)
  | num (n : Nat)
deriving DecidableEq, BEq, Repr

/-- `this.gasLimit = (gasLimit === "default") ? (2 * 616240) : gasLimit` -/
def resolveGasLimit (g : GasLimitArg) : GasLimitArg :=
  if g = GasLimitArg.str "default" then GasLimitArg.num (2 * 616240) else g

/-- ABI-encoded calldata of a built transaction: one constructor per contract
method used by `operator-manager.js`, carrying the method arguments. -/
inductive TxData where
  | addOperator (rndHash url : String)
  | removeOperator (opId : String)
  | withdraw (opId : String)
  | commitBatch (prevHash compressedTx : String)
  | forgeCommittedBatch (proofA proofB proofC input : List String)
  | commitAndForge (prevHash compressedTx : String)
      (proofA proofB proofC input : List String)
deriving DecidableEq, Repr

/-- A raw (unsigned) base-ledger transaction as assembled by the six
`getTx*` methods. -/
structure EthTx where
  fromAddr : String
  toAddr : String
  gasLimit : GasLimitArg
  gasPrice : String
  value : Option Nat
  data : TxData
deriving DecidableEq, Repr

/-- Result of `web3.eth.accounts.signTransaction(tx, privateKey)`; the signing
algorithm is external, so a signed transaction is modelled as the raw
transaction paired with the key it was signed with. -/
structure SignedTx where
  tx : EthTx
  signedWith : String
deriving DecidableEq, Repr

/-- The fields of `OperatorManager` relevant to transaction building (the
web3 provider and contract objects are external collaborators). -/
structure OperatorManager where
  walletAddress : String
  privateKey : String
  posAddress : String
  gasMul : Nat
  gasLimit : GasLimitArg
deriving Repr

/-- The constructor of `OperatorManager`:  stores the wallet and contract
address, coerces `gasMul` to `BigInt`, and resolves `"default"` to
`2 * 616240`. -/
def OperatorManager.make (walletAddress privateKey posAddress : String)
    (gasMul : Nat) (gasLimit : GasLimitArg) : OperatorManager :=
  { walletAddress := walletAddress
    privateKey := privateKey
    posAddress := posAddress
    gasMul := gasMul
    gasLimit := resolveGasLimit gasLimit }

/-- `_getGasPrice`: the node's average gas price (a decimal string, received
here already parsed as a `Nat` since `BigInt(strAvgGas)` is exact) times the
gas multiplier, encoded back as a decimal string. -/
def OperatorManager.getGasPrice (om : OperatorManager) (avgGas : Nat) : String :=
  toString (avgGas * om.gasMul)

/-- `signTransaction(tx)`. -/
def OperatorManager.signTransaction (om : OperatorManager) (tx : EthTx) : SignedTx :=
  { tx := tx, signedWith := om.privateKey }

/-- `web3.utils.toWei(stakeValue, "ether")`. -/
def toWeiEther (stakeValue : Nat) : Nat := stakeValue * 10 ^ 18

/-- The raw transaction built by `getTxRegister`. -/
def OperatorManager.registerTx (om : OperatorManager) (avgGas : Nat)
    (rndHash : String) (stakeValue : Nat) (url : String) : EthTx :=
  { fromAddr := om.walletAddress
    toAddr := om.posAddress
    gasLimit := om.gasLimit
    gasPrice := om.getGasPrice avgGas
    value := some (toWeiEther stakeValue)
    data := TxData.addOperator rndHash url }

/-- `getTxRegister`. -/
def OperatorManager.getTxRegister (om : OperatorManager) (avgGas : Nat)
    (rndHash : String) (stakeValue : Nat) (url : String) : SignedTx :=
  om.signTransaction (om.registerTx avgGas rndHash stakeValue url)

/-- The raw transaction built by `getTxUnregister`. -/
def OperatorManager.unregisterTx (om : OperatorManager) (avgGas opId : Nat) : EthTx :=
  { fromAddr := om.walletAddress
    toAddr := om.posAddress
    gasLimit := om.gasLimit
    gasPrice := om.getGasPrice avgGas
    value := none
    data := TxData.removeOperator (toString opId) }

/-- `getTxUnregister`. -/
def OperatorManager.getTxUnregister (om : OperatorManager) (avgGas opId : Nat) : SignedTx :=
  om.signTransaction (om.unregisterTx avgGas opId)

/-- The raw transaction built by `getTxWithdraw`. -/
def OperatorManager.withdrawTx (om : OperatorManager) (avgGas opId : Nat) : EthTx :=
  { fromAddr := om.walletAddress
    toAddr := om.posAddress
    gasLimit := om.gasLimit
    gasPrice := om.getGasPrice avgGas
    value := none
    data := TxData.withdraw (toString opId) }

/-- `getTxWithdraw`. -/
def OperatorManager.getTxWithdraw (om : OperatorManager) (avgGas opId : Nat) : SignedTx :=
  om.signTransaction (om.withdrawTx avgGas opId)

/-- The raw transaction built by `getTxCommit`. -/
def OperatorManager.commitTx (om : OperatorManager) (avgGas : Nat)
    (prevHash compressedTx : String) : EthTx :=
  { fromAddr := om.walletAddress
    toAddr := om.posAddress
    gasLimit := om.gasLimit
    gasPrice := om.getGasPrice avgGas
    value := none
    data := TxData.commitBatch prevHash compressedTx }

/-- `getTxCommit`. -/
def OperatorManager.getTxCommit (om : OperatorManager) (avgGas : Nat)
    (prevHash compressedTx : String) : SignedTx :=
  om.signTransaction (om.commitTx avgGas prevHash compressedTx)

/-- The raw transaction built by `getTxForge`. -/
def OperatorManager.forgeTx (om : OperatorManager) (avgGas : Nat)
    (proofA proofB proofC input : List String) : EthTx :=
  { fromAddr := om.walletAddress
    toAddr := om.posAddress
    gasLimit := om.gasLimit
    gasPrice := om.getGasPrice avgGas
    value := none
    data := TxData.forgeCommittedBatch proofA proofB proofC input }

/-- `getTxForge`. -/
def OperatorManager.getTxForge (om : OperatorManager) (avgGas : Nat)
    (proofA proofB proofC input : List String) : SignedTx :=
  om.signTransaction (om.forgeTx avgGas proofA proofB proofC input)

/-- The raw transaction built by `getTxCommitAndForge`. -/
def OperatorManager.commitAndForgeTx (om : OperatorManager) (avgGas : Nat)
    (prevHash compressedTx : String)
    (proofA proofB proofC input : List String) : EthTx :=
  { fromAddr := om.walletAddress
    toAddr := om.posAddress
    gasLimit := om.gasLimit
    gasPrice := om.getGasPrice avgGas
    value := none
    data := TxData.commitAndForge prevHash compressedTx proofA proofB proofC input }

/-- `getTxCommitAndForge`: unlike the other five builders this returns the
pair `[txSign, tx]` of the signed transaction and the raw transaction. -/
def OperatorManager.getTxCommitAndForge (om : OperatorManager) (avgGas : Nat)
    (prevHash compressedTx : String)
    (proofA proofB proofC input : List String) : SignedTx × EthTx :=
  let tx := om.commitAndForgeTx avgGas prevHash compressedTx proofA proofB proofC input
  (om.signTransaction tx, tx)

/-! ## Part II: Synchronizer / State-Tree engine

The engine (`src/synch`, `rollupdb`) is evidenced only through its test suite,
so the definitions below are modelled from the spec (sections 3, 4.2, 4.4,
4.5) and pinned by the balances and exit data the test suite asserts. -/

/-- Modelled from the spec: the reserved exit sentinel public-key x-coordinate
(`GlobalConst.exitAx`), the destination key marking withdrawals and
off-chain-initiated deposits. -/
def exitAx : Nat := 0

/-- Modelled from the spec: the reserved exit sentinel public-key y-coordinate
(`GlobalConst.exitAy`). -/
def exitAy : Nat := 0

/-- Modelled from the spec: one account leaf of the State Tree — coin id,
public-key coordinates (Ax, Ay), base-ledger address, balance and nonce. -/
structure Leaf where
  coin : Nat
  ax : Nat
  ay : Nat
  ethAddr : Nat
  amount : Nat
  nonce : Nat
deriving DecidableEq, Repr

/-- Modelled from the spec: one leaf of a per-batch Exit Tree — the identity
(coin, Ax, Ay) that exited and the withdrawn amount. -/
structure ExitLeaf where
  coin : Nat
  ax : Nat
  ay : Nat
  amount : Nat
deriving DecidableEq, Repr

/-- Modelled from the spec: a decoded fixed-width off-chain record
(`OffChainTx` / `DepositOffChainTx` in the test suite): sender and destination
keys and addresses, coin, amount, nonce, user fee, and the on-chain flag
marking records that entered through the on-chain deposit-off-chain path. -/
structure RecordTx where
  fromAx : Nat
  fromAy : Nat
  fromEthAddr : Nat
  toAx : Nat
  toAy : Nat
  toEthAddr : Nat
  coin : Nat
  amount : Nat
  nonce : Nat
  userFee : Nat
  onChain : Bool
deriving DecidableEq, Repr

/-- Modelled from the spec: a decoded transaction — an on-chain deposit
creating an account, an on-chain deposit on top of an existing account, or an
off-chain record (transfer, withdrawal, or off-chain-initiated deposit). -/
inductive Tx where
  | deposit (coin ax ay ethAddr loadAmount : Nat)
  | depositOnTop (coin ax ay amount : Nat)
  | record (r : RecordTx)
deriving DecidableEq, Repr

/-- Is the record's destination key the reserved exit sentinel? -/
def isExitRecord (r : RecordTx) : Bool :=
  r.toAx == exitAx && r.toAy == exitAy

/-- The three classes a decoded record can take. -/
inductive TxClass where
  | transfer
  | exit
  | depositOffChain
deriving DecidableEq, Repr

/-- Modelled from the spec: records whose destination key is the exit
sentinel are withdrawals (or, when they entered through the on-chain
deposit-off-chain path, account creations); every other record is an ordinary
transfer.  Only the destination key decides transfer versus non-transfer. -/
def classify (r : RecordTx) : TxClass :=
  if isExitRecord r then
    (if r.onChain then TxClass.depositOffChain else TxClass.exit)
  else TxClass.transfer

/-- Modelled from the spec: a batch — its (coin, fee) directives installed
before the transactions are applied, and its ordered transaction list. -/
structure Batch where
  addCoins : List (Nat × Nat)
  txs : List Tx
deriving DecidableEq, Repr

/-- Modelled from the spec: the synchronizer database — the account leaves of
the State Tree, the frozen Exit Tree snapshots keyed by batch number, the fee
totals collected per coin, and the number of the last consolidated batch. -/
structure SynchState where
  leaves : List Leaf
  exitSnapshots : List (Nat × List ExitLeaf)
  feeTotals : List (Nat × Nat)
  lastBatch : Nat
deriving DecidableEq, Repr

/-- Modelled from the spec: the State Tree root is a deterministic fingerprint
of the full leaf set; it is modelled as the leaf list itself (an injective
stand-in for the sparse-Merkle-tree hash). -/
def root (s : SynchState) : List Leaf := s.leaves

/-- Find the unique leaf for an identity (coin, Ax, Ay). -/
def findLeaf (ls : List Leaf) (coin ax ay : Nat) : Option Leaf :=
  ls.find? (fun l => l.coin == coin && l.ax == ax && l.ay == ay)

/-- Rewrite the leaf for an identity (coin, Ax, Ay) in place. -/
def updateLeaf (ls : List Leaf) (coin ax ay : Nat) (f : Leaf → Leaf) : List Leaf :=
  ls.map (fun l => if l.coin == coin && l.ax == ax && l.ay == ay then f l else l)

/-- Add a withdrawn amount to the Exit Tree being built for a batch, merging
repeated exits of the same identity into a single leaf. -/
def addExit (es : List ExitLeaf) (coin ax ay amount : Nat) : List ExitLeaf :=
  if (es.find? (fun e => e.coin == coin && e.ax == ax && e.ay == ay)).isSome then
    es.map (fun e =>
      if e.coin == coin && e.ax == ax && e.ay == ay then
        { e with amount := e.amount + amount }
      else e)
  else es ++ [{ coin := coin, ax := ax, ay := ay, amount := amount }]

/-- Add a collected fee to a per-coin total table. -/
def addFee (fs : List (Nat × Nat)) (coin fee : Nat) : List (Nat × Nat) :=
  if (fs.lookup coin).isSome then
    fs.map (fun p => if p.1 == coin then (p.1, p.2 + fee) else p)
  else fs ++ [(coin, fee)]

/-- Modelled from the spec: the in-flight result of applying one batch — the
mutated leaves, the Exit Tree under construction, and the fees collected. -/
structure BatchRun where
  leaves : List Leaf
  exits : List ExitLeaf
  fees : List (Nat × Nat)
deriving DecidableEq, Repr

/-- Modelled from the spec: apply one decoded transaction.  A transaction
referencing a missing account (or overdrawing a balance) yields `none`
(CorruptState — never silently skipped).  The fee charged on an off-chain
transaction is the registered fee for its coin capped by the user fee; exits
debit the sender and grow the Exit Tree, transfers debit the sender and
credit the destination leaf. -/
def applyTx (registry : List (Nat × Nat)) (br : BatchRun) : Tx → Option BatchRun
  | Tx.deposit coin ax ay ethAddr loadAmount =>
    match findLeaf br.leaves coin ax ay with
    | some _ => none
    | none => some { br with leaves := br.leaves ++
        [{ coin := coin, ax := ax, ay := ay, ethAddr := ethAddr,
           amount := loadAmount, nonce := 0 }] }
  | Tx.depositOnTop coin ax ay amount =>
    match findLeaf br.leaves coin ax ay with
    | none => none
    | some _ =>
      let topped := updateLeaf br.leaves coin ax ay
        (fun l => { l with amount := l.amount + amount })
      some { br with leaves := topped }
  | Tx.record r =>
    match classify r with
    | TxClass.depositOffChain =>
      match findLeaf br.leaves r.coin r.fromAx r.fromAy with
      | some _ => none
      | none => some { br with leaves := br.leaves ++
          [{ coin := r.coin, ax := r.fromAx, ay := r.fromAy,
             ethAddr := r.fromEthAddr, amount := r.amount, nonce := 0 }] }
    | TxClass.exit =>
      match findLeaf br.leaves r.coin r.fromAx r.fromAy with
      | none => none
      | some sender =>
        let fee := min r.userFee ((registry.lookup r.coin).getD 0)
        if sender.amount < r.amount + fee then none
        else some
          { leaves := updateLeaf br.leaves r.coin r.fromAx r.fromAy
              (fun l => { l with amount := l.amount - (r.amount + fee),
                                 nonce := l.nonce + 1 })
            exits := addExit br.exits r.coin r.fromAx r.fromAy r.amount
            fees := addFee br.fees r.coin fee }
    | TxClass.transfer =>
      match findLeaf br.leaves r.coin r.fromAx r.fromAy with
      | none => none
      | some sender =>
        let fee := min r.userFee ((registry.lookup r.coin).getD 0)
        if sender.amount < r.amount + fee then none
        else
          let debited := updateLeaf br.leaves r.coin r.fromAx r.fromAy
            (fun l => { l with amount := l.amount - (r.amount + fee),
                               nonce := l.nonce + 1 })
          match findLeaf debited r.coin r.toAx r.toAy with
          | none => none
          | some _ => some
            { leaves := updateLeaf debited r.coin r.toAx r.toAy
                (fun l => { l with amount := l.amount + r.amount })
              exits := br.exits
              fees := addFee br.fees r.coin fee }

/-- Apply a transaction list in the exact order given. -/
def applyTxs (registry : List (Nat × Nat)) (br : BatchRun) :
    List Tx → Option BatchRun
  | [] => some br
  | t :: ts => match applyTx registry br t with
    | none => none
    | some br1 => applyTxs registry br1 ts

/-- Modelled from the spec: `consolidate(batch)` — install the batch's
(coin, fee) directives, apply the transactions in list order (all or
nothing), freeze an Exit Tree snapshot keyed by the new batch number when any
exit occurred, and advance the batch cursor. -/
def consolidate (s : SynchState) (b : Batch) : Option SynchState :=
  match applyTxs b.addCoins { leaves := s.leaves, exits := [], fees := [] } b.txs with
  | none => none
  | some br => some
    { leaves := br.leaves
      exitSnapshots :=
        if br.exits.isEmpty then s.exitSnapshots
        else s.exitSnapshots ++ [(s.lastBatch + 1, br.exits)]
      feeTotals := br.fees.foldl (fun fs p => addFee fs p.1 p.2) s.feeTotals
      lastBatch := s.lastBatch + 1 }

/-! ### Query layer (spec section 4.5; names from the test suite) -/

/-- `getStateByAccount(coin, ax, ay)`: the single leaf for an identity. -/
def getStateByAccount (s : SynchState) (coin ax ay : Nat) : Option Leaf :=
  findLeaf s.leaves coin ax ay

/-- `getStateByAxAy(ax, ay)`: all accounts (one per coin) sharing a public
key. -/
def getStateByAxAy (s : SynchState) (ax ay : Nat) : List Leaf :=
  s.leaves.filter (fun l => l.ax == ax && l.ay == ay)

/-- `getStateByEthAddr(address)`: all accounts owned by a base-ledger
address. -/
def getStateByEthAddr (s : SynchState) (ethAddr : Nat) : List Leaf :=
  s.leaves.filter (fun l => l.ethAddr == ethAddr)

/-- `getExitsBatchById(coin, ax, ay)`: the batch numbers whose frozen Exit
Tree snapshot holds a leaf for this identity. -/
def getExitsBatchById (s : SynchState) (coin ax ay : Nat) : List Nat :=
  (s.exitSnapshots.filter
    (fun p => p.2.any (fun e => e.coin == coin && e.ax == ax && e.ay == ay))).map
    (fun p => p.1)

/-- Result of `getExitTreeInfo`: whether the identity exited in that batch,
and if so the frozen exit leaf. -/
structure ExitInfo where
  found : Bool
  state : Option ExitLeaf
deriving DecidableEq, Repr

/-- `getExitTreeInfo(numBatch, coin, ax, ay)`: look the identity up in the
frozen Exit Tree snapshot of one batch. -/
def getExitTreeInfo (s : SynchState) (numBatch coin ax ay : Nat) : ExitInfo :=
  match s.exitSnapshots.lookup numBatch with
  | none => { found := false, state := none }
  | some es =>
    match es.find? (fun e => e.coin == coin && e.ax == ax && e.ay == ay) with
    | none => { found := false, state := none }
    | some e => { found := true, state := some e }

/-- A query request of the read-only query layer. -/
inductive Query where
  | stateByAccount (coin ax ay : Nat)
  | stateByAxAy (ax ay : Nat)
  | stateByEthAddr (ethAddr : Nat)
  | exitsBatchById (coin ax ay : Nat)
  | exitTreeInfo (numBatch coin ax ay : Nat)
deriving DecidableEq, Repr

/-- Possible results of a query. -/
inductive QueryResult where
  | leaf (l : Option Leaf)
  | leaves (ls : List Leaf)
  | batches (ns : List Nat)
  | exitInfo (i : ExitInfo)
deriving DecidableEq, Repr

/-- Run one query against the synchronizer database, returning the (possibly
mutated) database together with the result; the query layer only reads. -/
def runQuery (s : SynchState) : Query → SynchState × QueryResult
  | Query.stateByAccount coin ax ay => (s, QueryResult.leaf (getStateByAccount s coin ax ay))
  | Query.stateByAxAy ax ay => (s, QueryResult.leaves (getStateByAxAy s ax ay))
  | Query.stateByEthAddr e => (s, QueryResult.leaves (getStateByEthAddr s e))
  | Query.exitsBatchById coin ax ay => (s, QueryResult.batches (getExitsBatchById s coin ax ay))
  | Query.exitTreeInfo n coin ax ay => (s, QueryResult.exitInfo (getExitTreeInfo s n coin ax ay))

/-! ### Data-availability encoding (spec section 4.2)

The operator publishes each forged batch's transactions as fixed-width
records; the synchronizer decodes them strictly left-to-right and replays
them.  Records are modelled as 12 field elements: a type tag followed by the
record fields (zero-padded). -/

/-- Modelled from the spec: serialize one decoded transaction as a fixed-width
(12-element) record. -/
def encodeTx : Tx → List Nat
  | Tx.deposit coin ax ay ethAddr loadAmount =>
    [0, coin, ax, ay, ethAddr, loadAmount, 0, 0, 0, 0, 0, 0]
  | Tx.depositOnTop coin ax ay amount =>
    [1, coin, ax, ay, amount, 0, 0, 0, 0, 0, 0, 0]
  | Tx.record r =>
    [2, r.fromAx, r.fromAy, r.fromEthAddr, r.toAx, r.toAy, r.toEthAddr,
     r.coin, r.amount, r.nonce, r.userFee, if r.onChain then 1 else 0]

/-- Modelled from the spec: the batch payload is the concatenation of its
fixed-width records. -/
def encodeBatch (txs : List Tx) : List Nat :=
  txs.foldr (fun t acc => encodeTx t ++ acc) []

/-- Modelled from the spec: decode one fixed-width record from its 12 fields;
an unknown type tag is a `DecodeError`. -/
def decodeTxFields (t a b c d e f g h i j k : Nat) : Option Tx :=
  match t with
  | 0 => some (Tx.deposit a b c d e)
  | 1 => some (Tx.depositOnTop a b c d)
  | 2 => some (Tx.record
      { fromAx := a, fromAy := b, fromEthAddr := c, toAx := d, toAy := e,
        toEthAddr := f, coin := g, amount := h, nonce := i, userFee := j,
        onChain := k != 0 })
  | _ => none

/-- Modelled from the spec: decode a batch payload strictly left-to-right,
one fixed-width record at a time; a leftover of the wrong width is a
`DecodeError` and aborts the whole batch. -/
def decodeBatch : List Nat → Option (List Tx)
  | [] => some []
  | t :: a :: b :: c :: d :: e :: f :: g :: h :: i :: j :: k :: rest =>
    match decodeTxFields t a b c d e f g h i j k with
    | none => none
    | some tx =>
      match decodeBatch rest with
      | none => none
      | some txs => some (tx :: txs)
  | _ => none

/-- Modelled from the spec: the synchronizer's replay of one forged batch —
decode the published payload, then consolidate the decoded transaction list
with the batch's (coin, fee) directives. -/
def synchReplay (s : SynchState) (payload : List Nat)
    (addCoins : List (Nat × Nat)) : Option SynchState :=
  match decodeBatch payload with
  | none => none
  | some txs => consolidate s { addCoins := addCoins, txs := txs }

/-! ## Part III: theorems -/

/-- C8: for every gas multiplier and every average gas price returned by the
node, `_getGasPrice` returns the exact integer product of the average gas
price and the gas multiplier, encoded as a decimal string, and this price is
the `gasPrice` of every transaction built by `getTxRegister`,
`getTxUnregister`, `getTxWithdraw`, `getTxCommit`, `getTxForge` and
`getTxCommitAndForge`. -/
theorem getGasPrice_exact_product (om : OperatorManager) (avgGas : Nat)
    (rndHash url prevHash compressedTx : String) (stakeValue opId : Nat)
    (pa pb pc inp : List String) :
    om.getGasPrice avgGas = toString (avgGas * om.gasMul)
    ∧ (om.getTxRegister avgGas rndHash stakeValue url).tx.gasPrice
        = toString (avgGas * om.gasMul)
    ∧ (om.getTxUnregister avgGas opId).tx.gasPrice = toString (avgGas * om.gasMul)
    ∧ (om.getTxWithdraw avgGas opId).tx.gasPrice = toString (avgGas * om.gasMul)
    ∧ (om.getTxCommit avgGas prevHash compressedTx).tx.gasPrice
        = toString (avgGas * om.gasMul)
    ∧ (om.getTxForge avgGas pa pb pc inp).tx.gasPrice = toString (avgGas * om.gasMul)
    ∧ (om.getTxCommitAndForge avgGas prevHash compressedTx pa pb pc inp).1.tx.gasPrice
        = toString (avgGas * om.gasMul)
    ∧ (om.getTxCommitAndForge avgGas prevHash compressedTx pa pb pc inp).2.gasPrice
        = toString (avgGas * om.gasMul) :=
  ⟨rfl, rfl, rfl, rfl, rfl, rfl, rfl, rfl⟩

/-- C9: a manager constructed with the string `"default"` as gas limit gives
every transaction it builds a gas limit of exactly `1232480 = 2 * 616240`;
any other gas-limit argument is stored unchanged, and every builder copies
the stored gas limit into its transaction. -/
theorem gasLimit_default_resolution (w pk pos : String) (gm : Nat)
    (g : GasLimitArg) (om : OperatorManager) (avgGas : Nat)
    (rndHash url prevHash compressedTx : String) (stakeValue opId : Nat)
    (pa pb pc inp : List String) :
    (OperatorManager.make w pk pos gm (GasLimitArg.str "default")).gasLimit
      = GasLimitArg.num 1232480
    ∧ (g ≠ GasLimitArg.str "default" →
        (OperatorManager.make w pk pos gm g).gasLimit = g)
    ∧ (om.getTxRegister avgGas rndHash stakeValue url).tx.gasLimit = om.gasLimit
    ∧ (om.getTxUnregister avgGas opId).tx.gasLimit = om.gasLimit
    ∧ (om.getTxWithdraw avgGas opId).tx.gasLimit = om.gasLimit
    ∧ (om.getTxCommit avgGas prevHash compressedTx).tx.gasLimit = om.gasLimit
    ∧ (om.getTxForge avgGas pa pb pc inp).tx.gasLimit = om.gasLimit
    ∧ (om.getTxCommitAndForge avgGas prevHash compressedTx pa pb pc inp).1.tx.gasLimit
        = om.gasLimit
    ∧ (om.getTxCommitAndForge avgGas prevHash compressedTx pa pb pc inp).2.gasLimit
        = om.gasLimit := by
  refine ⟨?_, ?_, rfl, rfl, rfl, rfl, rfl, rfl, rfl⟩
  · simp [OperatorManager.make, resolveGasLimit]
  · intro hg
    simp [OperatorManager.make, resolveGasLimit, hg]

/-- Witness for C9 at concrete inputs. -/
theorem gasLimit_default_resolution_witness :
    (OperatorManager.make "w" "k" "p" 2 (GasLimitArg.str "default")).gasLimit
      = GasLimitArg.num 1232480
    ∧ (OperatorManager.make "w" "k" "p" 2 (GasLimitArg.num 5)).gasLimit
      = GasLimitArg.num 5 :=
  ⟨(gasLimit_default_resolution "w" "k" "p" 2 (GasLimitArg.num 5)
      (OperatorManager.make "w" "k" "p" 2 (GasLimitArg.str "default")) 1
      "r" "u" "h" "c" 1 1 [] [] [] []).1,
   (gasLimit_default_resolution "w" "k" "p" 2 (GasLimitArg.num 5)
      (OperatorManager.make "w" "k" "p" 2 (GasLimitArg.str "default")) 1
      "r" "u" "h" "c" 1 1 [] [] [] []).2.1 (by decide)⟩

/-- C10: `getTxCommitAndForge` returns the pair of the signed transaction and
the raw unsigned transaction it was built from, while the other five builders
return only the signed transaction of their raw transaction. -/
theorem getTxCommitAndForge_returns_pair (om : OperatorManager) (avgGas : Nat)
    (rndHash url prevHash compressedTx : String) (stakeValue opId : Nat)
    (pa pb pc inp : List String) :
    om.getTxCommitAndForge avgGas prevHash compressedTx pa pb pc inp
      = (om.signTransaction
          (om.commitAndForgeTx avgGas prevHash compressedTx pa pb pc inp),
         om.commitAndForgeTx avgGas prevHash compressedTx pa pb pc inp)
    ∧ om.getTxRegister avgGas rndHash stakeValue url
        = om.signTransaction (om.registerTx avgGas rndHash stakeValue url)
    ∧ om.getTxUnregister avgGas opId
        = om.signTransaction (om.unregisterTx avgGas opId)
    ∧ om.getTxWithdraw avgGas opId = om.signTransaction (om.withdrawTx avgGas opId)
    ∧ om.getTxCommit avgGas prevHash compressedTx
        = om.signTransaction (om.commitTx avgGas prevHash compressedTx)
    ∧ om.getTxForge avgGas pa pb pc inp
        = om.signTransaction (om.forgeTx avgGas pa pb pc inp) :=
  ⟨rfl, rfl, rfl, rfl, rfl, rfl⟩

/-- C6: a decoded record is classified as a withdrawal/exit or an
off-chain-initiated deposit — rather than an ordinary transfer — if and only
if its destination key equals the reserved exit sentinel, and any two records
with the same destination key receive the same transfer/non-transfer
classification, whatever their other fields. -/
theorem classify_by_destination_only (r : RecordTx) :
    (classify r ≠ TxClass.transfer ↔ (r.toAx = exitAx ∧ r.toAy = exitAy))
    ∧ (∀ r2 : RecordTx, r.toAx = r2.toAx → r.toAy = r2.toAy →
        (classify r = TxClass.transfer ↔ classify r2 = TxClass.transfer)) := by
  have hcl : ∀ q : RecordTx,
      (classify q = TxClass.transfer ↔ ¬(q.toAx = exitAx ∧ q.toAy = exitAy)) := by
    intro q
    by_cases hq : q.toAx = exitAx ∧ q.toAy = exitAy
    · have htrue : isExitRecord q = true := by
        simp [isExitRecord, hq.1, hq.2]
      simp only [classify, htrue, if_true]
      cases q.onChain <;> simp [hq]
    · have hfalse : isExitRecord q = false := by
        simp only [isExitRecord, Bool.and_eq_true, beq_iff_eq, Bool.eq_false_iff, ne_eq,
          Bool.and_eq_true]
        intro hcontra
        exact hq ⟨by simpa using hcontra.1, by simpa using hcontra.2⟩
      simp [classify, hfalse, hq]
  constructor
  · rw [ne_eq, (hcl r).not]
    exact not_not
  · intro r2 hx hy
    rw [hcl r, hcl r2, hx, hy]

/-- Witness for C6 at concrete records: a withdrawal record aimed at the exit
sentinel and a transfer record with the same non-destination fields. -/
theorem classify_by_destination_only_witness :
    (classify { fromAx := 1, fromAy := 2, fromEthAddr := 3, toAx := exitAx,
                toAy := exitAy, toEthAddr := 0, coin := 0, amount := 2,
                nonce := 0, userFee := 0, onChain := false } ≠ TxClass.transfer
      ↔ ((exitAx : Nat) = exitAx ∧ (exitAy : Nat) = exitAy))
    ∧ (classify { fromAx := 1, fromAy := 2, fromEthAddr := 3, toAx := exitAx,
                  toAy := exitAy, toEthAddr := 0, coin := 0, amount := 2,
                  nonce := 0, userFee := 0, onChain := false } = TxClass.transfer
      ↔ classify { fromAx := 9, fromAy := 9, fromEthAddr := 9, toAx := exitAx,
                   toAy := exitAy, toEthAddr := 9, coin := 9, amount := 9,
                   nonce := 9, userFee := 9, onChain := true } = TxClass.transfer) :=
  ⟨(classify_by_destination_only _).1,
   (classify_by_destination_only _).2 _ rfl rfl⟩

/-- Decoding a batch payload undoes its fixed-width encoding. -/
lemma decodeBatch_encodeBatch (txs : List Tx) :
    decodeBatch (encodeBatch txs) = some txs := by
  induction txs with
  | nil => rfl
  | cons t ts ih =>
    have hstep : encodeBatch (t :: ts) = encodeTx t ++ encodeBatch ts := rfl
    rw [hstep]
    cases t with
    | deposit coin ax ay ethAddr loadAmount =>
      simp [encodeTx, decodeBatch, decodeTxFields, ih]
    | depositOnTop coin ax ay amount =>
      simp [encodeTx, decodeBatch, decodeTxFields, ih]
    | record r =>
      cases r with
      | mk fromAx fromAy fromEthAddr toAx toAy toEthAddr coin amount nonce userFee onChain =>
        cases onChain <;> simp [encodeTx, decodeBatch, decodeTxFields, ih]

/-- C1: consolidating a batch from the same prior state is deterministic —
two runs yield the same new root and the same leaf set — and a synchronizer
that decodes and replays the published payload of a forged batch reaches
exactly the state of the operator database that consolidated it. -/
theorem consolidate_deterministic_replay (s : SynchState) (b : Batch) :
    (∀ s1 s2 : SynchState, consolidate s b = some s1 → consolidate s b = some s2 →
        root s1 = root s2 ∧ s1.leaves = s2.leaves ∧ s1 = s2)
    ∧ synchReplay s (encodeBatch b.txs) b.addCoins = consolidate s b := by
  constructor
  · intro s1 s2 h1 h2
    rw [h1] at h2
    cases h2
    exact ⟨rfl, rfl, rfl⟩
  · rw [synchReplay, decodeBatch_encodeBatch]

/-- The empty synchronizer database. -/
def emptyState : SynchState :=
  { leaves := [], exitSnapshots := [], feeTotals := [], lastBatch := 0 }

/-- A concrete one-deposit batch used by concrete witnesses. -/
def depositBatch : Batch :=
  { addCoins := [], txs := [Tx.deposit 0 5 6 7 10] }

/-- Witness for C1: the two conjuncts at the concrete empty state and
one-deposit batch, with the determinism hypotheses discharged by computing
the consolidation. -/
theorem consolidate_deterministic_replay_witness :
    (root { leaves := [{ coin := 0, ax := 5, ay := 6, ethAddr := 7,
                         amount := 10, nonce := 0 }],
            exitSnapshots := [], feeTotals := [], lastBatch := 1 }
      = root { leaves := [{ coin := 0, ax := 5, ay := 6, ethAddr := 7,
                            amount := 10, nonce := 0 }],
               exitSnapshots := [], feeTotals := [], lastBatch := 1 })
    ∧ synchReplay emptyState (encodeBatch depositBatch.txs) depositBatch.addCoins
      = consolidate emptyState depositBatch :=
  ⟨((consolidate_deterministic_replay emptyState depositBatch).1 _ _
      (by decide) (by decide)).1,
   (consolidate_deterministic_replay emptyState depositBatch).2⟩

/-- Looking a key up after an in-place update that preserves every leaf's
key fields finds the (possibly updated) leaf the original lookup found. -/
lemma findLeaf_updateLeaf (ls : List Leaf) (ck cx cy coin ax ay : Nat)
    (f : Leaf → Leaf)
    (hf : ∀ l, (f l).coin = l.coin ∧ (f l).ax = l.ax ∧ (f l).ay = l.ay) :
    findLeaf (updateLeaf ls ck cx cy f) coin ax ay
      = (findLeaf ls coin ax ay).map
          (fun l => if l.coin == ck && l.ax == cx && l.ay == cy then f l else l) := by
  unfold findLeaf updateLeaf
  rw [List.find?_map]
  have hp : ((fun l => l.coin == coin && l.ax == ax && l.ay == ay) ∘ fun l =>
        if (l.coin == ck && l.ax == cx && l.ay == cy) = true then f l else l)
      = (fun l : Leaf => l.coin == coin && l.ax == ax && l.ay == ay) := by
    funext l
    simp only [Function.comp_apply]
    split
    · rw [(hf l).1, (hf l).2.1, (hf l).2.2]
    · rfl
  rw [hp]

/-- Consolidating a batch holding a single fresh deposit appends the new leaf
and leaves Exit Trees and fee totals untouched. -/
lemma deposit_run (s : SynchState) (coins : List (Nat × Nat))
    (coin ax ay ethAddr loadAmount : Nat)
    (habs : findLeaf s.leaves coin ax ay = none) :
    consolidate s { addCoins := coins,
                    txs := [Tx.deposit coin ax ay ethAddr loadAmount] }
      = some { leaves := s.leaves ++
                 [{ coin := coin, ax := ax, ay := ay, ethAddr := ethAddr,
                    amount := loadAmount, nonce := 0 }],
               exitSnapshots := s.exitSnapshots,
               feeTotals := s.feeTotals,
               lastBatch := s.lastBatch + 1 } := by
  simp [consolidate, applyTxs, applyTx, habs]

/-- C5: after a fresh deposit of `loadAmount` units of a coin to an account
is consolidated, `getStateByAccount` for that identity returns a leaf whose
amount equals the deposited amount and whose key coordinates and base-ledger
address match the deposit. -/
theorem deposit_getStateByAccount (s : SynchState) (coins : List (Nat × Nat))
    (coin ax ay ethAddr loadAmount : Nat)
    (habs : findLeaf s.leaves coin ax ay = none) :
    ∃ s2, consolidate s { addCoins := coins,
                          txs := [Tx.deposit coin ax ay ethAddr loadAmount] }
            = some s2
      ∧ getStateByAccount s2 coin ax ay
          = some { coin := coin, ax := ax, ay := ay, ethAddr := ethAddr,
                   amount := loadAmount, nonce := 0 } := by
  refine ⟨_, deposit_run s coins coin ax ay ethAddr loadAmount habs, ?_⟩
  unfold getStateByAccount findLeaf
  unfold findLeaf at habs
  rw [List.find?_append, habs]
  simp

/-- Witness for C5: depositing 10 units of coin 0 into the empty database. -/
theorem deposit_getStateByAccount_witness :
    ∃ s2, consolidate emptyState { addCoins := [],
                                   txs := [Tx.deposit 0 5 6 7 10] } = some s2
      ∧ getStateByAccount s2 0 5 6
          = some { coin := 0, ax := 5, ay := 6, ethAddr := 7,
                   amount := 10, nonce := 0 } :=
  deposit_getStateByAccount emptyState [] 0 5 6 7 10 (by decide)

/-- Consolidating a batch holding a single off-chain withdrawal debits the
sender by amount plus fee, freezes an Exit Tree snapshot with one leaf
carrying the withdrawn amount, and records the fee. -/
lemma offchainExit_run (s : SynchState) (coins : List (Nat × Nat))
    (coin ax ay ethAddr b n a uf toEth nz : Nat)
    (hleaf : findLeaf s.leaves coin ax ay
      = some { coin := coin, ax := ax, ay := ay, ethAddr := ethAddr,
               amount := b, nonce := n })
    (hle : a + min uf ((coins.lookup coin).getD 0) ≤ b) :
    consolidate s
        { addCoins := coins,
          txs := [Tx.record { fromAx := ax, fromAy := ay, fromEthAddr := ethAddr,
                              toAx := exitAx, toAy := exitAy, toEthAddr := toEth,
                              coin := coin, amount := a, nonce := nz,
                              userFee := uf, onChain := false }] }
      = some { leaves := updateLeaf s.leaves coin ax ay
                 (fun l => { l with
                    amount := l.amount - (a + min uf ((coins.lookup coin).getD 0)),
                    nonce := l.nonce + 1 }),
               exitSnapshots := s.exitSnapshots
                 ++ [(s.lastBatch + 1,
                      [{ coin := coin, ax := ax, ay := ay, amount := a }])],
               feeTotals := addFee s.feeTotals coin
                 (min uf ((coins.lookup coin).getD 0)),
               lastBatch := s.lastBatch + 1 } := by
  have hnlt : ¬ (b < a + min uf ((coins.lookup coin).getD 0)) := Nat.not_lt.mpr hle
  simp [consolidate, applyTxs, applyTx, classify, isExitRecord, hleaf, hnlt,
    addExit, addFee]

/-- C4: applying a withdrawal of `a` units from an account with balance `b`
(with user fee `uf`) in the next batch leaves the account with balance
`b - (a + fee)`, makes `getExitsBatchById` include that batch number, and
makes `getExitTreeInfo` for that batch return `found = true` with an exit
leaf whose amount is exactly the withdrawn amount. -/
theorem withdraw_balance_and_exit (s : SynchState) (coins : List (Nat × Nat))
    (coin ax ay ethAddr b n a uf toEth nz : Nat)
    (hleaf : findLeaf s.leaves coin ax ay
      = some { coin := coin, ax := ax, ay := ay, ethAddr := ethAddr,
               amount := b, nonce := n })
    (hle : a + min uf ((coins.lookup coin).getD 0) ≤ b)
    (hfresh : s.exitSnapshots.lookup (s.lastBatch + 1) = none) :
    ∃ s2, consolidate s
        { addCoins := coins,
          txs := [Tx.record { fromAx := ax, fromAy := ay, fromEthAddr := ethAddr,
                              toAx := exitAx, toAy := exitAy, toEthAddr := toEth,
                              coin := coin, amount := a, nonce := nz,
                              userFee := uf, onChain := false }] } = some s2
      ∧ getStateByAccount s2 coin ax ay
          = some { coin := coin, ax := ax, ay := ay, ethAddr := ethAddr,
                   amount := b - (a + min uf ((coins.lookup coin).getD 0)),
                   nonce := n + 1 }
      ∧ (s.lastBatch + 1) ∈ getExitsBatchById s2 coin ax ay
      ∧ getExitTreeInfo s2 (s.lastBatch + 1) coin ax ay
          = { found := true,
              state := some { coin := coin, ax := ax, ay := ay, amount := a } } := by
  refine ⟨_, offchainExit_run s coins coin ax ay ethAddr b n a uf toEth nz hleaf hle,
    ?_, ?_, ?_⟩
  · have h := findLeaf_updateLeaf s.leaves coin ax ay coin ax ay
      (fun l => { l with
         amount := l.amount - (a + min uf ((coins.lookup coin).getD 0)),
         nonce := l.nonce + 1 })
      (fun l => ⟨rfl, rfl, rfl⟩)
    rw [getStateByAccount, h, hleaf]
    simp
  · simp [getExitsBatchById, List.filter_append]
  · simp [getExitTreeInfo, List.lookup_append, hfresh]

/-- Witness for C4: withdrawing 2 units from an account holding 3 units (no
fee) leaves balance 1, lists the new batch among the exit batches, and the
frozen exit leaf carries amount 2. -/
theorem withdraw_balance_and_exit_witness :
    ∃ s2, consolidate
        { leaves := [{ coin := 0, ax := 5, ay := 6, ethAddr := 7,
                       amount := 3, nonce := 0 }],
          exitSnapshots := [], feeTotals := [], lastBatch := 8 }
        { addCoins := [],
          txs := [Tx.record { fromAx := 5, fromAy := 6, fromEthAddr := 7,
                              toAx := exitAx, toAy := exitAy, toEthAddr := 0,
                              coin := 0, amount := 2, nonce := 0,
                              userFee := 0, onChain := false }] } = some s2
      ∧ getStateByAccount s2 0 5 6
          = some { coin := 0, ax := 5, ay := 6, ethAddr := 7,
                   amount := 3 - (2 + min 0 ((([] : List (Nat × Nat)).lookup 0).getD 0)),
                   nonce := 0 + 1 }
      ∧ (8 + 1) ∈ getExitsBatchById s2 0 5 6
      ∧ getExitTreeInfo s2 (8 + 1) 0 5 6
          = { found := true,
              state := some { coin := 0, ax := 5, ay := 6, amount := 2 } } :=
  withdraw_balance_and_exit
    { leaves := [{ coin := 0, ax := 5, ay := 6, ethAddr := 7,
                   amount := 3, nonce := 0 }],
      exitSnapshots := [], feeTotals := [], lastBatch := 8 }
    [] 0 5 6 7 3 0 2 0 0 0 (by decide) (by decide) (by decide)

/-- A concrete off-chain-initiated deposit record: destination is the exit
sentinel, `onChain` is set, amount 0 (the account-3/account-4 pattern of the
test suite). -/
def depositOffChainRecord : RecordTx :=
  { fromAx := 20, fromAy := 21, fromEthAddr := 22, toAx := exitAx,
    toAy := exitAy, toEthAddr := 0, coin := 0, amount := 0, nonce := 0,
    userFee := 0, onChain := true }

/-- Prior state for the C2 counterexample: empty database at batch 6. -/
def c2State : SynchState :=
  { leaves := [], exitSnapshots := [], feeTotals := [], lastBatch := 6 }

/-- One-record batch holding only the off-chain-initiated deposit. -/
def c2Batch : Batch :=
  { addCoins := [], txs := [Tx.record depositOffChainRecord] }

/-- Counterexample to C2 as stated: this record's destination is the exit
sentinel and its batch consolidates, yet the consolidated state has no Exit
Tree snapshot for that batch — `getExitTreeInfo` answers `found = false`, so
not every sentinel-destination transaction yields an exit leaf. -/
theorem exit_completeness_cex :
    isExitRecord depositOffChainRecord = true
    ∧ (consolidate c2State c2Batch).isSome = true
    ∧ (consolidate c2State c2Batch).map
        (fun s2 => (getExitTreeInfo s2 (c2State.lastBatch + 1)
          depositOffChainRecord.coin depositOffChainRecord.fromAx
          depositOffChainRecord.fromAy).found) = some false := by
  decide


/-- A pair of `Nat` equality tests is boolean-false when the conjunction of
the equalities fails. -/
lemma beq_pair_false {x y u v : Nat} (h : ¬ (x = u ∧ y = v)) :
    (x == u && y == v) = false := by
  rcases Bool.eq_false_or_eq_true (x == u) with h1 | h1
  · have hx : x = u := by simpa using h1
    have hy : ¬ y = v := fun hy => h ⟨hx, hy⟩
    simp [h1, hy]
  · simp [h1]

/-- A record whose destination key is not the exit sentinel is an ordinary
transfer. -/
lemma classify_not_exit (r : RecordTx)
    (h : ¬ (r.toAx = exitAx ∧ r.toAy = exitAy)) :
    classify r = TxClass.transfer := by
  have hex : isExitRecord r = false := by
    unfold isExitRecord
    exact beq_pair_false h
  simp [classify, hex]

/-- Looking up a coin in the fee table after bumping every entry of that coin
by `fee`. -/
lemma lookup_map_addfee (fs : List (Nat × Nat)) (coin fee : Nat) :
    (fs.map (fun p => if p.1 == coin then (p.1, p.2 + fee) else p)).lookup coin
      = (fs.lookup coin).map (fun v => v + fee) := by
  induction fs with
  | nil => rfl
  | cons p fs ih =>
    obtain ⟨k, v⟩ := p
    by_cases hk : k = coin
    · subst hk
      have hg : (if ((k, v).1 == k) = true then ((k, v).1, (k, v).2 + fee)
          else (k, v)) = (k, v + fee) := by simp
      rw [List.map_cons, hg, List.lookup_cons_self, List.lookup_cons_self]
      rfl
    · have hbeq : ((k, v).1 == coin) = false := by simpa using hk
      have hbeq2 : (coin == k) = false := by
        have : ¬ coin = k := fun hc => hk hc.symm
        simpa using this
      have hg : (if ((k, v).1 == coin) = true then ((k, v).1, (k, v).2 + fee)
          else (k, v)) = (k, v) := by simp [hbeq]
      rw [List.map_cons, hg, List.lookup_cons, List.lookup_cons, hbeq2]
      simpa using ih

/-- `addFee` adds exactly `fee` to the recorded total of its coin. -/
lemma lookup_addFee (fs : List (Nat × Nat)) (coin fee : Nat) :
    ((addFee fs coin fee).lookup coin).getD 0
      = ((fs.lookup coin).getD 0) + fee := by
  unfold addFee
  cases hfs : fs.lookup coin with
  | none =>
    simp [List.lookup_append, hfs]
  | some w =>
    have hc : (some w).isSome = true := rfl
    rw [if_pos hc, lookup_map_addfee fs coin fee, hfs]
    rfl

/-- Consolidating a batch holding a single off-chain transfer debits the
sender by amount plus fee, credits the destination by the amount, and
records the fee; no Exit Tree snapshot is created. -/
lemma transfer_run (s : SynchState) (coins : List (Nat × Nat))
    (coin sax say sEth rax ray rEth sb sn rb rn a uf nz : Nat)
    (hsend : findLeaf s.leaves coin sax say
      = some { coin := coin, ax := sax, ay := say, ethAddr := sEth,
               amount := sb, nonce := sn })
    (hrecv : findLeaf s.leaves coin rax ray
      = some { coin := coin, ax := rax, ay := ray, ethAddr := rEth,
               amount := rb, nonce := rn })
    (hnotexit : ¬ (rax = exitAx ∧ ray = exitAy))
    (hdist : ¬ (rax = sax ∧ ray = say))
    (hle : a + min uf ((coins.lookup coin).getD 0) ≤ sb) :
    consolidate s
        { addCoins := coins,
          txs := [Tx.record { fromAx := sax, fromAy := say, fromEthAddr := sEth,
                              toAx := rax, toAy := ray, toEthAddr := rEth,
                              coin := coin, amount := a, nonce := nz,
                              userFee := uf, onChain := false }] }
      = some { leaves := updateLeaf
                 (updateLeaf s.leaves coin sax say
                   (fun l => { l with
                      amount := l.amount - (a + min uf ((coins.lookup coin).getD 0)),
                      nonce := l.nonce + 1 }))
                 coin rax ray
                 (fun l => { l with amount := l.amount + a }),
               exitSnapshots := s.exitSnapshots,
               feeTotals := addFee s.feeTotals coin
                 (min uf ((coins.lookup coin).getD 0)),
               lastBatch := s.lastBatch + 1 } := by
  have hnlt : ¬ (sb < a + min uf ((coins.lookup coin).getD 0)) := Nat.not_lt.mpr hle
  have hcl : classify
      { fromAx := sax, fromAy := say, fromEthAddr := sEth,
        toAx := rax, toAy := ray, toEthAddr := rEth, coin := coin, amount := a,
        nonce := nz, userFee := uf, onChain := false } = TxClass.transfer :=
    classify_not_exit _ hnotexit
  have hdeb := findLeaf_updateLeaf s.leaves coin sax say coin rax ray
    (fun l => { l with
       amount := l.amount - (a + min uf ((coins.lookup coin).getD 0)),
       nonce := l.nonce + 1 })
    (fun l => ⟨rfl, rfl, rfl⟩)
  have hrecv2 : findLeaf (updateLeaf s.leaves coin sax say
      (fun l => { l with
         amount := l.amount - (a + min uf ((coins.lookup coin).getD 0)),
         nonce := l.nonce + 1 })) coin rax ray
      = some { coin := coin, ax := rax, ay := ray, ethAddr := rEth,
               amount := rb, nonce := rn } := by
    rw [hdeb, hrecv]
    simp [hdist]
  simp [consolidate, applyTxs, applyTx, hcl, hsend, hnlt, hrecv2, addFee]

/-- Prior state for the C3 counterexample: the fee-test configuration of the
test suite — sender holding 11 units, destination holding 0. -/
def c3State : SynchState :=
  { leaves := [{ coin := 0, ax := 1, ay := 2, ethAddr := 3,
                 amount := 11, nonce := 0 },
               { coin := 0, ax := 4, ay := 5, ethAddr := 6,
                 amount := 0, nonce := 0 }],
    exitSnapshots := [], feeTotals := [], lastBatch := 11 }

/-- The fee-test batch: coin 0 registered with fee 5, one transfer of 5 units
with user fee 5. -/
def c3Batch : Batch :=
  { addCoins := [(0, 5)],
    txs := [Tx.record { fromAx := 1, fromAy := 2, fromEthAddr := 3,
                        toAx := 4, toAy := 5, toEthAddr := 6, coin := 0,
                        amount := 5, nonce := 0, userFee := 5,
                        onChain := false }] }

/-- Counterexample to C3 as stated: after the 5-unit transfer with fee 5 the
sender's balance is 1 = 11 - (5 + 5), not 6 = 11 - 5 — the sender is debited
the amount plus the fee, not the transfer amount alone. -/
theorem transfer_fee_debit_cex :
    (consolidate c3State c3Batch).map
        (fun s2 => (getStateByAccount s2 0 1 2).map Leaf.amount) = some (some 1)
    ∧ some (some (1 : Nat)) ≠ some (some (11 - 5)) := by
  decide

/-- C3 amended: a transfer of `a` units with fee `f` (the registered fee for
the coin capped by the user fee) debits the sender by `a + f`, credits the
destination by `a`, and adds `f` to the per-coin fee total — the fee is
routed to the fee accounting, not silently lost. -/
theorem transfer_fee_accounting (s : SynchState) (coins : List (Nat × Nat))
    (coin sax say sEth rax ray rEth sb sn rb rn a uf nz : Nat)
    (hsend : findLeaf s.leaves coin sax say
      = some { coin := coin, ax := sax, ay := say, ethAddr := sEth,
               amount := sb, nonce := sn })
    (hrecv : findLeaf s.leaves coin rax ray
      = some { coin := coin, ax := rax, ay := ray, ethAddr := rEth,
               amount := rb, nonce := rn })
    (hnotexit : ¬ (rax = exitAx ∧ ray = exitAy))
    (hdist : ¬ (rax = sax ∧ ray = say))
    (hle : a + min uf ((coins.lookup coin).getD 0) ≤ sb) :
    ∃ s2, consolidate s
        { addCoins := coins,
          txs := [Tx.record { fromAx := sax, fromAy := say, fromEthAddr := sEth,
                              toAx := rax, toAy := ray, toEthAddr := rEth,
                              coin := coin, amount := a, nonce := nz,
                              userFee := uf, onChain := false }] } = some s2
      ∧ getStateByAccount s2 coin sax say
          = some { coin := coin, ax := sax, ay := say, ethAddr := sEth,
                   amount := sb - (a + min uf ((coins.lookup coin).getD 0)),
                   nonce := sn + 1 }
      ∧ getStateByAccount s2 coin rax ray
          = some { coin := coin, ax := rax, ay := ray, ethAddr := rEth,
                   amount := rb + a, nonce := rn }
      ∧ ((s2.feeTotals.lookup coin).getD 0)
          = ((s.feeTotals.lookup coin).getD 0)
            + min uf ((coins.lookup coin).getD 0) := by
  have hdist2 : ¬ (sax = rax ∧ say = ray) :=
    fun hp => hdist ⟨hp.1.symm, hp.2.symm⟩
  refine ⟨_, transfer_run s coins coin sax say sEth rax ray rEth sb sn rb rn
    a uf nz hsend hrecv hnotexit hdist hle, ?_, ?_, ?_⟩
  · have hcred := findLeaf_updateLeaf
      (updateLeaf s.leaves coin sax say
        (fun l => { l with
           amount := l.amount - (a + min uf ((coins.lookup coin).getD 0)),
           nonce := l.nonce + 1 }))
      coin rax ray coin sax say
      (fun l => { l with amount := l.amount + a })
      (fun l => ⟨rfl, rfl, rfl⟩)
    have hdeb := findLeaf_updateLeaf s.leaves coin sax say coin sax say
      (fun l => { l with
         amount := l.amount - (a + min uf ((coins.lookup coin).getD 0)),
         nonce := l.nonce + 1 })
      (fun l => ⟨rfl, rfl, rfl⟩)
    rw [getStateByAccount, hcred, hdeb, hsend]
    simp [hdist2]
  · have hcred := findLeaf_updateLeaf
      (updateLeaf s.leaves coin sax say
        (fun l => { l with
           amount := l.amount - (a + min uf ((coins.lookup coin).getD 0)),
           nonce := l.nonce + 1 }))
      coin rax ray coin rax ray
      (fun l => { l with amount := l.amount + a })
      (fun l => ⟨rfl, rfl, rfl⟩)
    have hdeb := findLeaf_updateLeaf s.leaves coin sax say coin rax ray
      (fun l => { l with
         amount := l.amount - (a + min uf ((coins.lookup coin).getD 0)),
         nonce := l.nonce + 1 })
      (fun l => ⟨rfl, rfl, rfl⟩)
    rw [getStateByAccount, hcred, hdeb, hrecv]
    simp [hdist]
  · exact lookup_addFee s.feeTotals coin (min uf ((coins.lookup coin).getD 0))

/-- Witness for the amended C3 at the fee-test values: a 5-unit transfer with
user fee 5 and registered fee 5 — the sender's 11 becomes 1, the destination
gains 5, and 5 units land in the coin-0 fee total. -/
theorem transfer_fee_accounting_witness :
    ∃ s2, consolidate c3State c3Batch = some s2
      ∧ getStateByAccount s2 0 1 2
          = some { coin := 0, ax := 1, ay := 2, ethAddr := 3,
                   amount := 11 - (5 + min 5 ((([(0, 5)] : List (Nat × Nat)).lookup 0).getD 0)),
                   nonce := 0 + 1 }
      ∧ getStateByAccount s2 0 4 5
          = some { coin := 0, ax := 4, ay := 5, ethAddr := 6,
                   amount := 0 + 5, nonce := 0 }
      ∧ ((s2.feeTotals.lookup 0).getD 0)
          = ((c3State.feeTotals.lookup 0).getD 0)
            + min 5 ((([(0, 5)] : List (Nat × Nat)).lookup 0).getD 0) :=
  transfer_fee_accounting c3State [(0, 5)] 0 1 2 3 4 5 6 11 0 0 0 5 5 0
    (by decide) (by decide) (by decide) (by decide) (by decide)

/-- C7: the query layer is read-only — running any query returns the
database unchanged — and, on a database whose leaves have unique
(coin, Ax, Ay) keys, `getStateByAccount` returns exactly the single leaf
for that identity, `getStateByAxAy` lists exactly the accounts sharing a
public key, and `getStateByEthAddr` lists exactly the accounts owned by a
base-ledger address. -/
theorem queryLayer_readOnly (s : SynchState) (q : Query)
    (coin ax ay e : Nat) (l : Leaf)
    (huniq : ∀ l1 ∈ s.leaves, ∀ l2 ∈ s.leaves,
      l1.coin = l2.coin → l1.ax = l2.ax → l1.ay = l2.ay → l1 = l2) :
    (runQuery s q).1 = s
    ∧ (getStateByAccount s coin ax ay = some l
        ↔ (l ∈ s.leaves ∧ l.coin = coin ∧ l.ax = ax ∧ l.ay = ay))
    ∧ (l ∈ getStateByAxAy s ax ay ↔ (l ∈ s.leaves ∧ l.ax = ax ∧ l.ay = ay))
    ∧ (l ∈ getStateByEthAddr s e ↔ (l ∈ s.leaves ∧ l.ethAddr = e)) := by
  refine ⟨?_, ?_, ?_, ?_⟩
  · cases q <;> rfl
  · constructor
    · intro h
      have hmem := List.mem_of_find?_eq_some h
      have hp := List.find?_some h
      simp only [Bool.and_eq_true, beq_iff_eq] at hp
      exact ⟨hmem, hp.1.1, hp.1.2, hp.2⟩
    · rintro ⟨hmem, h1, h2, h3⟩
      have hex : (s.leaves.find? (fun x =>
          x.coin == coin && x.ax == ax && x.ay == ay)).isSome := by
        rw [List.find?_isSome]
        exact ⟨l, hmem, by simp [h1, h2, h3]⟩
      obtain ⟨x, hx⟩ := Option.isSome_iff_exists.mp hex
      have hxmem := List.mem_of_find?_eq_some hx
      have hxp := List.find?_some hx
      simp only [Bool.and_eq_true, beq_iff_eq] at hxp
      have hxl : x = l := huniq x hxmem l hmem
        (by rw [hxp.1.1, h1]) (by rw [hxp.1.2, h2]) (by rw [hxp.2, h3])
      rw [getStateByAccount, findLeaf, hx, hxl]
  · constructor
    · intro h
      have := List.mem_filter.mp h
      simp only [Bool.and_eq_true, beq_iff_eq] at this
      exact ⟨this.1, this.2.1, this.2.2⟩
    · rintro ⟨hmem, h1, h2⟩
      exact List.mem_filter.mpr ⟨hmem, by simp [h1, h2]⟩
  · constructor
    · intro h
      have := List.mem_filter.mp h
      simp only [beq_iff_eq] at this
      exact this
    · rintro ⟨hmem, h1⟩
      exact List.mem_filter.mpr ⟨hmem, by simp [h1]⟩

/-- Witness for C7 at the concrete two-leaf database of the fee test. -/
theorem queryLayer_readOnly_witness :
    (runQuery c3State (Query.stateByAccount 0 1 2)).1 = c3State
    ∧ (getStateByAccount c3State 0 1 2
        = some { coin := 0, ax := 1, ay := 2, ethAddr := 3,
                 amount := 11, nonce := 0 }
        ↔ ({ coin := 0, ax := 1, ay := 2, ethAddr := 3,
             amount := 11, nonce := 0 } ∈ c3State.leaves
           ∧ (0 : Nat) = 0 ∧ (1 : Nat) = 1 ∧ (2 : Nat) = 2))
    ∧ ({ coin := 0, ax := 1, ay := 2, ethAddr := 3,
         amount := 11, nonce := 0 } ∈ getStateByAxAy c3State 1 2
        ↔ ({ coin := 0, ax := 1, ay := 2, ethAddr := 3,
             amount := 11, nonce := 0 } ∈ c3State.leaves
           ∧ (1 : Nat) = 1 ∧ (2 : Nat) = 2))
    ∧ ({ coin := 0, ax := 1, ay := 2, ethAddr := 3,
         amount := 11, nonce := 0 } ∈ getStateByEthAddr c3State 3
        ↔ ({ coin := 0, ax := 1, ay := 2, ethAddr := 3,
             amount := 11, nonce := 0 } ∈ c3State.leaves
           ∧ (3 : Nat) = 3)) :=
  queryLayer_readOnly c3State (Query.stateByAccount 0 1 2) 0 1 2 3
    { coin := 0, ax := 1, ay := 2, ethAddr := 3, amount := 11, nonce := 0 }
    (by decide)

/-- Is this decoded transaction an off-chain withdrawal by the given
identity (coin, Ax, Ay)? -/
def isExitBy (coin ax ay : Nat) : Tx → Bool
  | Tx.record r =>
    match classify r with
    | TxClass.exit => r.coin == coin && r.fromAx == ax && r.fromAy == ay
    | _ => false
  | _ => false

/-- The amount field of a decoded off-chain record (zero for on-chain
event transactions). -/
def txAmount : Tx → Nat
  | Tx.record r => r.amount
  | _ => 0

/-- Does the batch contain at least one off-chain withdrawal by this
identity? -/
def hasExit (txs : List Tx) (coin ax ay : Nat) : Bool :=
  txs.any (isExitBy coin ax ay)

/-- The total amount withdrawn by an identity over one batch. -/
def exitSum (txs : List Tx) (coin ax ay : Nat) : Nat :=
  ((txs.filter (isExitBy coin ax ay)).map txAmount).sum

/-- A triple of `Nat` equality tests is boolean-false when the conjunction
of the equalities fails. -/
lemma beq_triple_false {x y z u v w : Nat} (h : ¬ (x = u ∧ y = v ∧ z = w)) :
    (x == u && y == v && z == w) = false := by
  rcases Bool.eq_false_or_eq_true (x == u) with h1 | h1
  · have hx : x = u := by simpa using h1
    rcases Bool.eq_false_or_eq_true (y == v) with h2 | h2
    · have hy : y = v := by simpa using h2
      have hz : ¬ z = w := fun hz => h ⟨hx, hy, hz⟩
      simp [h1, h2, hz]
    · simp [h2]
  · simp [h1]

/-- Finding an exit leaf by identity commutes with the amount-bumping map of
`addExit`, which preserves every leaf's key fields. -/
lemma find_exits_map (es : List ExitLeaf) (ac bx cy am qc qx qy : Nat) :
    ((es.map (fun e => if e.coin == ac && e.ax == bx && e.ay == cy
        then { e with amount := e.amount + am } else e)).find?
      (fun e => e.coin == qc && e.ax == qx && e.ay == qy))
    = ((es.find? (fun e => e.coin == qc && e.ax == qx && e.ay == qy)).map
        (fun e => if e.coin == ac && e.ax == bx && e.ay == cy
          then { e with amount := e.amount + am } else e)) := by
  rw [List.find?_map]
  have hp : ((fun e : ExitLeaf => e.coin == qc && e.ax == qx && e.ay == qy) ∘
      fun e => if e.coin == ac && e.ax == bx && e.ay == cy
        then { e with amount := e.amount + am } else e)
      = (fun e : ExitLeaf => e.coin == qc && e.ax == qx && e.ay == qy) := by
    funext e
    simp only [Function.comp_apply]
    split
    · rfl
    · rfl
  rw [hp]

/-- Counting exit leaves by identity is invariant under the amount-bumping
map of `addExit`. -/
lemma countP_exits_map (es : List ExitLeaf) (ac bx cy am qc qx qy : Nat) :
    ((es.map (fun e => if e.coin == ac && e.ax == bx && e.ay == cy
        then { e with amount := e.amount + am } else e)).countP
      (fun e => e.coin == qc && e.ax == qx && e.ay == qy))
    = es.countP (fun e => e.coin == qc && e.ax == qx && e.ay == qy) := by
  rw [List.countP_map]
  have hp : ((fun e : ExitLeaf => e.coin == qc && e.ax == qx && e.ay == qy) ∘
      fun e => if e.coin == ac && e.ax == bx && e.ay == cy
        then { e with amount := e.amount + am } else e)
      = (fun e : ExitLeaf => e.coin == qc && e.ax == qx && e.ay == qy) := by
    funext e
    simp only [Function.comp_apply]
    split
    · rfl
    · rfl
  rw [hp]

/-- Adding an exit for an identity leaves its Exit Tree leaf carrying the
previous accumulated amount plus the new withdrawal. -/
lemma addExit_find_self (es : List ExitLeaf) (qc qx qy am : Nat) :
    ((addExit es qc qx qy am).find?
        (fun e => e.coin == qc && e.ax == qx && e.ay == qy)).map
      (fun e => e.amount)
      = some ((((es.find? (fun e => e.coin == qc && e.ax == qx && e.ay == qy)).map
          (fun e => e.amount)).getD 0) + am) := by
  unfold addExit
  cases hf : es.find? (fun e => e.coin == qc && e.ax == qx && e.ay == qy) with
  | none =>
    rw [if_neg (by simp)]
    rw [List.find?_append, hf]
    simp
  | some e =>
    rw [if_pos (by rfl)]
    rw [find_exits_map, hf]
    have hpe := List.find?_some hf
    simp only [Option.map_some']
    rw [if_pos hpe]
    simp

/-- Adding an exit for an identity rebuilds its Exit Tree entry as a single
leaf, given the at-most-one-leaf invariant. -/
lemma addExit_countP_self (es : List ExitLeaf) (qc qx qy am : Nat)
    (hinv : es.countP (fun e => e.coin == qc && e.ax == qx && e.ay == qy)
      = if (es.find? (fun e => e.coin == qc && e.ax == qx && e.ay == qy)).isSome
        then 1 else 0) :
    (addExit es qc qx qy am).countP
        (fun e => e.coin == qc && e.ax == qx && e.ay == qy) = 1 := by
  unfold addExit
  cases hf : es.find? (fun e => e.coin == qc && e.ax == qx && e.ay == qy) with
  | none =>
    rw [hf] at hinv
    simp only [Option.isSome_none, Bool.false_eq_true, if_false] at hinv
    rw [if_neg (by simp)]
    rw [List.countP_append, hinv]
    simp
  | some e =>
    rw [hf] at hinv
    simp only [Option.isSome_some, if_true] at hinv
    rw [if_pos (by rfl)]
    rw [countP_exits_map]
    exact hinv

/-- Adding an exit for one identity does not change the Exit Tree entry of a
different identity. -/
lemma addExit_find_other (es : List ExitLeaf) (ac bx cy am qc qx qy : Nat)
    (h : ¬ (ac = qc ∧ bx = qx ∧ cy = qy)) :
    (addExit es ac bx cy am).find?
        (fun e => e.coin == qc && e.ax == qx && e.ay == qy)
      = es.find? (fun e => e.coin == qc && e.ax == qx && e.ay == qy) := by
  unfold addExit
  cases hf : es.find? (fun e => e.coin == ac && e.ax == bx && e.ay == cy) with
  | none =>
    rw [if_neg (by simp)]
    rw [List.find?_append]
    have hx : (ac == qc && bx == qx && cy == qy) = false := beq_triple_false h
    simp [hx]
  | some e =>
    rw [if_pos (by rfl)]
    rw [find_exits_map]
    cases hq : es.find? (fun e => e.coin == qc && e.ax == qx && e.ay == qy) with
    | none => rfl
    | some e2 =>
      have hpe2 := List.find?_some hq
      simp only [Bool.and_eq_true, beq_iff_eq] at hpe2
      have hcond : (e2.coin == ac && e2.ax == bx && e2.ay == cy) = false := by
        apply beq_triple_false
        rintro ⟨h1, h2, h3⟩
        exact h ⟨h1.symm.trans hpe2.1.1, h2.symm.trans hpe2.1.2,
          h3.symm.trans hpe2.2⟩
      simp only [Option.map_some']
      rw [if_neg (by simp [hcond])]

/-- Adding an exit for one identity does not change how many Exit Tree
leaves a different identity has. -/
lemma addExit_countP_other (es : List ExitLeaf) (ac bx cy am qc qx qy : Nat)
    (h : ¬ (ac = qc ∧ bx = qx ∧ cy = qy)) :
    (addExit es ac bx cy am).countP
        (fun e => e.coin == qc && e.ax == qx && e.ay == qy)
      = es.countP (fun e => e.coin == qc && e.ax == qx && e.ay == qy) := by
  unfold addExit
  cases hf : es.find? (fun e => e.coin == ac && e.ax == bx && e.ay == cy) with
  | none =>
    rw [if_neg (by simp)]
    rw [List.countP_append]
    have hx : (ac == qc && bx == qx && cy == qy) = false := beq_triple_false h
    simp [hx]
  | some e =>
    rw [if_pos (by rfl)]
    exact countP_exits_map es ac bx cy am qc qx qy

/-- The exits accumulator after one applied transaction: only a successful
off-chain withdrawal touches it, through `addExit` on its sender identity. -/
lemma applyTx_exits_eq (registry : List (Nat × Nat)) (br br2 : BatchRun)
    (t : Tx) (h : applyTx registry br t = some br2) :
    br2.exits = match t with
      | Tx.record r =>
        match classify r with
        | TxClass.exit => addExit br.exits r.coin r.fromAx r.fromAy r.amount
        | _ => br.exits
      | _ => br.exits := by
  cases t with
  | deposit c x y e la =>
    simp only [applyTx] at h
    split at h
    · simp at h
    · cases h
      rfl
  | depositOnTop c x y am =>
    simp only [applyTx] at h
    split at h
    · simp at h
    · cases h
      rfl
  | record r =>
    simp only [applyTx] at h
    cases hcl : classify r with
    | depositOffChain =>
      simp only [hcl] at h
      split at h
      · simp at h
      · cases h
        simp [hcl]
    | exit =>
      simp only [hcl] at h
      split at h
      · simp at h
      · split at h
        · simp at h
        · cases h
          simp [hcl]
    | transfer =>
      simp only [hcl] at h
      split at h
      · simp at h
      · split at h
        · simp at h
        · split at h
          · simp at h
          · cases h
            simp [hcl]

/-- A transaction that is not an off-chain withdrawal by the observed
identity leaves that identity's Exit Tree entry and leaf count unchanged. -/
lemma applyTx_exits_preserve (registry : List (Nat × Nat)) (br br2 : BatchRun)
    (t : Tx) (qc qx qy : Nat)
    (happ : applyTx registry br t = some br2)
    (hq : isExitBy qc qx qy t = false) :
    br2.exits.find? (fun e => e.coin == qc && e.ax == qx && e.ay == qy)
      = br.exits.find? (fun e => e.coin == qc && e.ax == qx && e.ay == qy)
    ∧ br2.exits.countP (fun e => e.coin == qc && e.ax == qx && e.ay == qy)
      = br.exits.countP (fun e => e.coin == qc && e.ax == qx && e.ay == qy) := by
  have hex := applyTx_exits_eq registry br br2 t happ
  cases t with
  | deposit c x y e la =>
    rw [hex]
    exact ⟨rfl, rfl⟩
  | depositOnTop c x y am =>
    rw [hex]
    exact ⟨rfl, rfl⟩
  | record r =>
    cases hcl : classify r with
    | depositOffChain =>
      simp only [hcl] at hex
      rw [hex]
      exact ⟨rfl, rfl⟩
    | transfer =>
      simp only [hcl] at hex
      rw [hex]
      exact ⟨rfl, rfl⟩
    | exit =>
      simp only [hcl] at hex
      have hqf : (r.coin == qc && r.fromAx == qx && r.fromAy == qy) = false := by
        simpa [isExitBy, hcl] using hq
      have hne : ¬ (r.coin = qc ∧ r.fromAx = qx ∧ r.fromAy = qy) := by
        rintro ⟨h1, h2, h3⟩
        simp [h1, h2, h3] at hqf
      rw [hex]
      exact ⟨addExit_find_other br.exits r.coin r.fromAx r.fromAy r.amount
          qc qx qy hne,
        addExit_countP_other br.exits r.coin r.fromAx r.fromAy r.amount
          qc qx qy hne⟩

/-- `hasExit` over a cons. -/
lemma hasExit_cons (t : Tx) (ts : List Tx) (qc qx qy : Nat) :
    hasExit (t :: ts) qc qx qy = (isExitBy qc qx qy t || hasExit ts qc qx qy) := rfl

/-- `exitSum` over a cons whose head is an exit by the identity. -/
lemma exitSum_cons_pos {t : Tx} {ts : List Tx} {qc qx qy : Nat}
    (h : isExitBy qc qx qy t = true) :
    exitSum (t :: ts) qc qx qy = txAmount t + exitSum ts qc qx qy := by
  simp [exitSum, List.filter_cons, h]

/-- `exitSum` over a cons whose head is not an exit by the identity. -/
lemma exitSum_cons_neg {t : Tx} {ts : List Tx} {qc qx qy : Nat}
    (h : isExitBy qc qx qy t = false) :
    exitSum (t :: ts) qc qx qy = exitSum ts qc qx qy := by
  simp [exitSum, List.filter_cons, h]

/-- An identity with no exit in a transaction list withdrew nothing. -/
lemma exitSum_eq_zero {ts : List Tx} {qc qx qy : Nat}
    (h : hasExit ts qc qx qy = false) : exitSum ts qc qx qy = 0 := by
  unfold hasExit at h
  rw [List.any_eq_false] at h
  unfold exitSum
  rw [List.filter_eq_nil_iff.mpr h]
  rfl

/-- A successful off-chain withdrawal by the observed identity leaves that
identity with exactly one Exit Tree leaf, carrying the previously
accumulated amount plus this withdrawal. -/
lemma applyTx_exits_exit (registry : List (Nat × Nat)) (br br2 : BatchRun)
    (t : Tx) (qc qx qy : Nat)
    (happ : applyTx registry br t = some br2)
    (hq : isExitBy qc qx qy t = true)
    (hinv : br.exits.countP (fun e => e.coin == qc && e.ax == qx && e.ay == qy)
      = if (br.exits.find? (fun e => e.coin == qc && e.ax == qx && e.ay == qy)).isSome
        then 1 else 0) :
    ((br2.exits.find? (fun e => e.coin == qc && e.ax == qx && e.ay == qy)).map
        (fun e => e.amount)
      = some ((((br.exits.find? (fun e => e.coin == qc && e.ax == qx && e.ay == qy)).map
          (fun e => e.amount)).getD 0) + txAmount t))
    ∧ br2.exits.countP (fun e => e.coin == qc && e.ax == qx && e.ay == qy) = 1 := by
  have hex := applyTx_exits_eq registry br br2 t happ
  cases t with
  | deposit c x y e la => simp [isExitBy] at hq
  | depositOnTop c x y am => simp [isExitBy] at hq
  | record r =>
    cases hcl : classify r with
    | depositOffChain => simp [isExitBy, hcl] at hq
    | transfer => simp [isExitBy, hcl] at hq
    | exit =>
      simp only [hcl] at hex
      have hqk : r.coin = qc ∧ r.fromAx = qx ∧ r.fromAy = qy := by
        simp only [isExitBy, hcl, Bool.and_eq_true, beq_iff_eq] at hq
        exact ⟨hq.1.1, hq.1.2, hq.2⟩
      obtain ⟨h1, h2, h3⟩ := hqk
      subst h1
      subst h2
      subst h3
      rw [hex]
      exact ⟨addExit_find_self br.exits r.coin r.fromAx r.fromAy r.amount,
        addExit_countP_self br.exits r.coin r.fromAx r.fromAy r.amount hinv⟩

/-- Folding a transaction list over the exits accumulator: the observed
identity ends with at most one Exit Tree leaf, present exactly when the list
contains an exit by it, and carrying its total withdrawn amount. -/
lemma applyTxs_exits_spec (registry : List (Nat × Nat)) (txs : List Tx)
    (br br2 : BatchRun) (qc qx qy : Nat)
    (h : applyTxs registry br txs = some br2)
    (hinv : br.exits.countP (fun e => e.coin == qc && e.ax == qx && e.ay == qy)
      = if (br.exits.find? (fun e => e.coin == qc && e.ax == qx && e.ay == qy)).isSome
        then 1 else 0) :
    (br2.exits.countP (fun e => e.coin == qc && e.ax == qx && e.ay == qy)
      = if (br2.exits.find? (fun e => e.coin == qc && e.ax == qx && e.ay == qy)).isSome
        then 1 else 0)
    ∧ ((br2.exits.find? (fun e => e.coin == qc && e.ax == qx && e.ay == qy)).map
          (fun e => e.amount)
        = if hasExit txs qc qx qy then
            some ((((br.exits.find? (fun e => e.coin == qc && e.ax == qx && e.ay == qy)).map
              (fun e => e.amount)).getD 0) + exitSum txs qc qx qy)
          else (br.exits.find? (fun e => e.coin == qc && e.ax == qx && e.ay == qy)).map
            (fun e => e.amount)) := by
  induction txs generalizing br with
  | nil =>
    simp only [applyTxs] at h
    cases h
    refine ⟨hinv, ?_⟩
    simp [hasExit]
  | cons t ts ih =>
    simp only [applyTxs] at h
    cases happ : applyTx registry br t with
    | none =>
      rw [happ] at h
      simp at h
    | some br1 =>
      rw [happ] at h
      by_cases hq : isExitBy qc qx qy t = true
      · obtain ⟨f1, f2⟩ := applyTx_exits_exit registry br br1 t qc qx qy happ hq hinv
        have hsome1 : (br1.exits.find?
            (fun e => e.coin == qc && e.ax == qx && e.ay == qy)).isSome = true := by
          cases hfe : br1.exits.find?
              (fun e => e.coin == qc && e.ax == qx && e.ay == qy) with
          | none => rw [hfe] at f1; simp at f1
          | some e => rfl
        have hinv1 : br1.exits.countP
            (fun e => e.coin == qc && e.ax == qx && e.ay == qy)
            = if (br1.exits.find?
                (fun e => e.coin == qc && e.ax == qx && e.ay == qy)).isSome
              then 1 else 0 := by
          rw [f2, hsome1]
          simp
        obtain ⟨ihc, iha⟩ := ih br1 h hinv1
        refine ⟨ihc, ?_⟩
        have hh : hasExit (t :: ts) qc qx qy = true := by
          rw [hasExit_cons, hq]
          rfl
        rw [iha, f1]
        by_cases hts : hasExit ts qc qx qy = true
        · rw [if_pos hts, if_pos hh, exitSum_cons_pos hq]
          simp [Nat.add_assoc]
        · have hts0 : hasExit ts qc qx qy = false := by simpa using hts
          rw [if_neg hts, if_pos hh, exitSum_cons_pos hq, exitSum_eq_zero hts0]
          simp
      · have hq0 : isExitBy qc qx qy t = false := by simpa using hq
        obtain ⟨f1, f2⟩ := applyTx_exits_preserve registry br br1 t qc qx qy happ hq0
        have hinv1 : br1.exits.countP
            (fun e => e.coin == qc && e.ax == qx && e.ay == qy)
            = if (br1.exits.find?
                (fun e => e.coin == qc && e.ax == qx && e.ay == qy)).isSome
              then 1 else 0 := by
          rw [f1, f2]
          exact hinv
        obtain ⟨ihc, iha⟩ := ih br1 h hinv1
        refine ⟨ihc, ?_⟩
        rw [iha, f1, hasExit_cons, hq0, exitSum_cons_neg hq0]
        simp

/-- C2 amended: in any successfully consolidated batch, every identity that
performs at least one off-chain withdrawal (destination = exit sentinel, not
an on-chain-initiated deposit) gets exactly one leaf in that batch's frozen
Exit Tree snapshot, whose amount is the identity's total withdrawn amount in
the batch, and `getExitTreeInfo` for that batch returns `found = true` with
that leaf. -/
theorem exit_completeness_offchain (s : SynchState) (b : Batch)
    (s2 : SynchState) (coin ax ay : Nat)
    (hcons : consolidate s b = some s2)
    (hfresh : s.exitSnapshots.lookup (s.lastBatch + 1) = none)
    (hhas : hasExit b.txs coin ax ay = true) :
    ((s2.exitSnapshots.lookup (s.lastBatch + 1)).getD []).countP
        (fun e => e.coin == coin && e.ax == ax && e.ay == ay) = 1
    ∧ (getExitTreeInfo s2 (s.lastBatch + 1) coin ax ay).found = true
    ∧ (getExitTreeInfo s2 (s.lastBatch + 1) coin ax ay).state
        = some { coin := coin, ax := ax, ay := ay,
                 amount := exitSum b.txs coin ax ay } := by
  unfold consolidate at hcons
  cases habr : applyTxs b.addCoins
      { leaves := s.leaves, exits := [], fees := [] } b.txs with
  | none =>
    rw [habr] at hcons
    simp at hcons
  | some br =>
    rw [habr] at hcons
    obtain ⟨ihc, iha⟩ := applyTxs_exits_spec b.addCoins b.txs
      { leaves := s.leaves, exits := [], fees := [] } br coin ax ay habr (by simp)
    rw [hhas] at iha
    simp only [eq_self_iff_true, if_true, List.find?_nil, Option.map_none',
      Option.getD_none, Nat.zero_add] at iha
    cases hfe : br.exits.find?
        (fun e => e.coin == coin && e.ax == ax && e.ay == ay) with
    | none =>
      rw [hfe] at iha
      simp at iha
    | some e =>
      rw [hfe] at iha
      simp only [Option.map_some', Option.some.injEq] at iha
      have hpe := List.find?_some hfe
      simp only [Bool.and_eq_true, beq_iff_eq] at hpe
      have he : e
          = { coin := coin, ax := ax, ay := ay,
              amount := exitSum b.txs coin ax ay } := by
        cases e with
        | mk ec ex ey ea =>
          simp only at hpe iha
          simp [hpe.1.1, hpe.1.2, hpe.2, iha]
      have hnil : br.exits ≠ [] := by
        intro h0
        rw [h0] at hfe
        simp at hfe
      have hne : br.exits.isEmpty = false := by
        have hn0 : ¬ br.exits.isEmpty := fun hie => hnil (List.isEmpty_iff.mp hie)
        simpa using hn0
      simp only [hne, Bool.false_eq_true, if_false] at hcons
      injection hcons with hs2
      subst hs2
      refine ⟨?_, ?_, ?_⟩
      · show (((s.exitSnapshots ++ [(s.lastBatch + 1, br.exits)]).lookup
            (s.lastBatch + 1)).getD []).countP
            (fun e => e.coin == coin && e.ax == ax && e.ay == ay) = 1
        rw [List.lookup_append, hfresh]
        simp only [Option.none_or, List.lookup_cons_self, Option.getD_some]
        rw [ihc, hfe]
        rfl
      · show (getExitTreeInfo
            { leaves := br.leaves,
              exitSnapshots := s.exitSnapshots ++ [(s.lastBatch + 1, br.exits)],
              feeTotals := br.fees.foldl (fun fs p => addFee fs p.1 p.2) s.feeTotals,
              lastBatch := s.lastBatch + 1 }
            (s.lastBatch + 1) coin ax ay).found = true
        rw [getExitTreeInfo]
        simp only [List.lookup_append, hfresh, Option.none_or,
          List.lookup_cons_self]
        rw [hfe]
      · show (getExitTreeInfo
            { leaves := br.leaves,
              exitSnapshots := s.exitSnapshots ++ [(s.lastBatch + 1, br.exits)],
              feeTotals := br.fees.foldl (fun fs p => addFee fs p.1 p.2) s.feeTotals,
              lastBatch := s.lastBatch + 1 }
            (s.lastBatch + 1) coin ax ay).state
            = some { coin := coin, ax := ax, ay := ay,
                     amount := exitSum b.txs coin ax ay }
        rw [getExitTreeInfo]
        simp only [List.lookup_append, hfresh, Option.none_or,
          List.lookup_cons_self]
        rw [hfe, he]

/-- Witness for the amended C2 on a concrete two-transaction batch: a
deposit of 3 units followed by an off-chain withdrawal of 2 units by the
same identity. -/
theorem exit_completeness_offchain_witness :
    ((({ leaves := [{ coin := 0, ax := 5, ay := 6, ethAddr := 7,
                      amount := 1, nonce := 1 }],
         exitSnapshots := [(9, [{ coin := 0, ax := 5, ay := 6, amount := 2 }])],
         feeTotals := [(0, 0)],
         lastBatch := 9 } : SynchState).exitSnapshots.lookup (8 + 1)).getD []).countP
        (fun e => e.coin == 0 && e.ax == 5 && e.ay == 6) = 1
    ∧ (getExitTreeInfo
        { leaves := [{ coin := 0, ax := 5, ay := 6, ethAddr := 7,
                       amount := 1, nonce := 1 }],
          exitSnapshots := [(9, [{ coin := 0, ax := 5, ay := 6, amount := 2 }])],
          feeTotals := [(0, 0)],
          lastBatch := 9 } (8 + 1) 0 5 6).found = true
    ∧ (getExitTreeInfo
        { leaves := [{ coin := 0, ax := 5, ay := 6, ethAddr := 7,
                       amount := 1, nonce := 1 }],
          exitSnapshots := [(9, [{ coin := 0, ax := 5, ay := 6, amount := 2 }])],
          feeTotals := [(0, 0)],
          lastBatch := 9 } (8 + 1) 0 5 6).state
        = some { coin := 0, ax := 5, ay := 6,
                 amount := exitSum
                   [Tx.deposit 0 5 6 7 3,
                    Tx.record { fromAx := 5, fromAy := 6, fromEthAddr := 7,
                                toAx := exitAx, toAy := exitAy, toEthAddr := 0,
                                coin := 0, amount := 2, nonce := 0,
                                userFee := 0, onChain := false }] 0 5 6 } :=
  exit_completeness_offchain
    { leaves := [], exitSnapshots := [], feeTotals := [], lastBatch := 8 }
    { addCoins := [],
      txs := [Tx.deposit 0 5 6 7 3,
              Tx.record { fromAx := 5, fromAy := 6, fromEthAddr := 7,
                          toAx := exitAx, toAy := exitAy, toEthAddr := 0,
                          coin := 0, amount := 2, nonce := 0,
                          userFee := 0, onChain := false }] }
    { leaves := [{ coin := 0, ax := 5, ay := 6, ethAddr := 7,
                   amount := 1, nonce := 1 }],
      exitSnapshots := [(9, [{ coin := 0, ax := 5, ay := 6, amount := 2 }])],
      feeTotals := [(0, 0)],
      lastBatch := 9 }
    0 5 6 (by decide) (by decide) (by decide)
